import Mathlib

/-!
Shallow embedding of `search_r1/llm_agent/tensor_helper.py` (class `TensorHelper`)
and verification of its specification.

Modelling conventions:
 * a 2-D integer tensor of shape (batch, seq) is a `List (List Int)` (rows of cells);
 * a 3-D tensor of shape (b, L, *D) flattens the trailing shape `*D` into one list,
   so it is a `List (List (List Int))` (rows of cells, each cell a flattened block);
 * a `torch` boolean tensor is a `List Bool`;
 * a Python `dict` of tensors is an association list `List (String × List (List Int))`
   looked up by `List.lookup`;
 * Python slice bounds (which may be negative and are clamped, never failing)
   are interpreted by `pyIdx`;
 * the one failing operation reachable in the source, the `assert` in
   `_example_level_pad`, is modelled with `Except`.
-/

/-- Configuration dataclass `TensorConfig` of the source module. -/
structure TensorConfig where
  pad_token_id : Int
  max_prompt_length : Nat
  max_obs_length : Nat
  max_start_length : Nat

/-- Dict of named 2-D tensors, as passed to `cut_to_effective_len`. -/
abbrev TensorDict := List (String × List (List Int))

/-- Python index normalization for a slice bound `i` over a row of width `w`:
a negative bound counts from the right and is clamped below at 0; a
non-negative bound is clamped above at `w`.  Python slicing never raises. -/
def pyIdx (w : Nat) (i : Int) : Nat :=
  if i < 0 then ((w : Int) + i).toNat else min i.toNat w

/-- Sum of one row, modelling `tensor.sum(dim=1)` on an integer tensor. -/
def rowSumInt (row : List Int) : Int := row.foldr (· + ·) 0

/-- Effective length `tensor_dict['attention_mask'].sum(dim=1).max()`:
the maximum over rows of the row sums of the attention mask.
(The fold default 0 is only reached on an empty batch, which the source
would reject; no claim exercises that case.) -/
def effectiveLen (tensor_dict : TensorDict) : Int :=
  (((tensor_dict.lookup "attention_mask").getD []).map rowSumInt).foldr max 0

/-- One row of `t[:, -effective_len:]` (cut_left) or `t[:, :effective_len]`,
with Python slice semantics (clamping, and `-0 = 0` selecting the whole row). -/
def cutRow (el : Int) (cut_left : Bool) (row : List Int) : List Int :=
  if cut_left then row.drop (pyIdx row.length (-el)) else row.take (pyIdx row.length el)

/-- Cut every row of a named tensor, modelling the per-key slice assignment. -/
def cutTensor (el : Int) (cut_left : Bool) (t : List (List Int)) : List (List Int) :=
  t.map (cutRow el cut_left)

/-- Python `result[key] = v` on a dict: replace the entry when the key is
present, append it otherwise. -/
def dictSet (d : TensorDict) (k : String) (v : List (List Int)) : TensorDict :=
  if d.any (fun p => p.1 == k) then
    d.map (fun p => if p.1 == k then (k, v) else p)
  else d ++ [(k, v)]

/-- `TensorHelper.cut_to_effective_len`: compute the effective length from the
attention mask, copy the dict, and re-slice each named tensor, taking the
rightmost columns when `cut_left` and the leftmost otherwise.  The source
reads `tensor_dict[key]` (the original dict) inside the loop, as modelled. -/
def cut_to_effective_len (tensor_dict : TensorDict) (keys : List String)
    (cut_left : Bool) : TensorDict :=
  let effective_len := effectiveLen tensor_dict
  keys.foldl
    (fun result key =>
      dictSet result key (cutTensor effective_len cut_left ((tensor_dict.lookup key).getD [])))
    tensor_dict

/-- Stable ascending argsort of the 0/1 key row `fun i => p row[i]`
(`mask.to(torch.int64).argsort(dim=1, stable=True)`): for keys that take only
the values 0 and 1, the stable ascending sort lists all 0-key column indices
in their original order, then all 1-key column indices in their original order. -/
def argsortBinaryRow (p : Int → Bool) (row : List Int) : List Nat :=
  (List.range row.length).filter (fun i => !(p (row.getD i 0))) ++
    (List.range row.length).filter (fun i => p (row.getD i 0))

/-- One row of `tensor.gather(1, sorted_indices)`. -/
def gatherRow (row : List Int) (idxs : List Nat) : List Int :=
  idxs.map (fun j => row.getD j 0)

/-- `TensorHelper.convert_pad_structure`: classify each cell (`tensor != pad`
when converting to pad-left, `tensor == pad` when converting to pad-right),
stably argsort each row by the classification, and gather by the resulting
per-row column permutation; returns the reordered tensor and the indices. -/
def convert_pad_structure (cfg : TensorConfig) (tensor : List (List Int))
    (pad_to_left : Bool) : List (List Int) × List (List Nat) :=
  let p : Int → Bool := fun x =>
    if pad_to_left then x != cfg.pad_token_id else x == cfg.pad_token_id
  (tensor.map (fun row => gatherRow row (argsortBinaryRow p row)),
   tensor.map (fun row => argsortBinaryRow p row))

/-- `TensorHelper.create_attention_mask`: 1 where the token differs from the
pad id, 0 elsewhere. -/
def create_attention_mask (cfg : TensorConfig) (input_ids : List (List Int)) :
    List (List Int) :=
  input_ids.map (fun row => row.map (fun x => if x ≠ cfg.pad_token_id then 1 else 0))

/-- Running inclusive prefix sums starting from `acc`, modelling
`torch.cumsum(_, dim=1)` on one row. -/
def cumsumFrom (acc : Int) : List Int → List Int
  | [] => []
  | x :: xs => (acc + x) :: cumsumFrom (acc + x) xs

/-- `TensorHelper.create_position_ids`:
`(torch.cumsum(attention_mask, dim=1) - 1) * attention_mask`, row-wise. -/
def create_position_ids (attention_mask : List (List Int)) : List (List Int) :=
  attention_mask.map (fun row =>
    (cumsumFrom 0 row).zipWith (fun c m => (c - 1) * m) row)

/-- `torch.cat(tensors, dim=1)`: row `i` of the result is the concatenation of
row `i` of every input tensor, in list order (all inputs share the row count). -/
def catDim1 (tensors : List (List (List Int))) : List (List Int) :=
  (List.range ((tensors.headD []).length)).map
    (fun i => (tensors.map (fun t => t.getD i [])).flatten)

/-- `TensorHelper.concatenate_with_padding`: concatenate along the sequence
dimension, then convert the pad structure of the result to the requested side. -/
def concatenate_with_padding (cfg : TensorConfig) (tensors : List (List (List Int)))
    (pad_to_left : Bool) : List (List Int) :=
  (convert_pad_structure cfg (catDim1 tensors) pad_to_left).1

/-- Boolean-mask row assignment `padded[active_mask] = responses` over a
freshly allocated all-pad tensor of `mask.length` rows and `seqLen` columns:
each True position consumes the next row of `rows`, left to right; each False
position keeps its all-pad row. -/
def scatterRows (pad : Int) (seqLen : Nat) : List Bool → List (List Int) → List (List Int)
  | [], _ => []
  | true :: ms, rows => rows.headD (List.replicate seqLen pad) :: scatterRows pad seqLen ms rows.tail
  | false :: ms, rows => List.replicate seqLen pad :: scatterRows pad seqLen ms rows

/-- Cursor loop of `_example_level_pad` over the string list: starting from a
list of `mask.length` empty strings, each True position receives the next
string (`responses_str[s]`, assumed parallel to the responses rows), each
False position keeps `""`. -/
def scatterStrs : List Bool → List String → List String
  | [], _ => []
  | true :: ms, ss => ss.headD "" :: scatterStrs ms ss.tail
  | false :: ms, ss => "" :: scatterStrs ms ss

/-- `TensorHelper._example_level_pad`: assert that the number of True entries
of the active mask equals the number of active response rows (an
`AssertionError` otherwise, modelled with `Except.error`), then scatter the
active rows and strings into a full-batch tensor and string list.
`seq_len` is `responses.shape[1]`, read off the first row. -/
def example_level_pad (cfg : TensorConfig) (responses : List (List Int))
    (responses_str : List String) (active_mask : List Bool) :
    Except String (List (List Int) × List String) :=
  if active_mask.countP (fun b => b) = responses.length then
    let seq_len := (responses.headD []).length
    .ok (scatterRows cfg.pad_token_id seq_len active_mask responses,
         scatterStrs active_mask responses_str)
  else
    .error "active mask sum does not match responses rows"

/-- Slice assignment `dst[start : start + src.length] = src` on one row
(in-range when `start + src.length ≤ dst.length`). -/
def writeSlice (dst : List α) (start : Nat) (src : List α) : List α :=
  dst.take start ++ src ++ dst.drop (start + src.length)

/-- Sequence length `t.size(1)` of a 3-D tensor, read off its first row. -/
def tensorLen (t : List (List (List Int))) : Nat := (t.headD []).length

/-- `L_max = max(lengths)` of `_turn_level_pad_and_concatenate`. -/
def maxLen (tensors : List (List (List (List Int)))) : Nat :=
  (tensors.map tensorLen).foldr max 0

/-- Flattened trailing-block size `*D`, read off the first cell of the first
row of the first tensor (`rest = dims[2:]` in the source). -/
def trailingSize (tensors : List (List (List (List Int)))) : Nat :=
  ((((tensors.headD []).headD []).headD []).length)

/-- Body of the copy loop of `_turn_level_pad_and_concatenate` for one source
tensor `t`: each of its rows is written into a fresh all-pad output row of
`L_max` cells (`dsize` pad tokens per cell) at column offset `L_max - L`
when `pad_to_left` and at offset 0 otherwise, where `L = t.size(1)`. -/
def turnBlock (cfg : TensorConfig) (L_max dsize : Nat) (pad_to_left : Bool)
    (t : List (List (List Int))) : List (List (List Int)) :=
  t.map (fun row =>
    writeSlice (List.replicate L_max (List.replicate dsize cfg.pad_token_id))
      (if pad_to_left then L_max - tensorLen t else 0) row)

/-- `TensorHelper._turn_level_pad_and_concatenate`: pre-allocate an all-pad
tensor of shape (Σ b_i, L_max, *D) and copy each input tensor into its
contiguous row block, blocks in input order.  The mutation loop of the
source writes each output row exactly once, so it is rendered as a per-row
`writeSlice` into a fresh all-pad row (`turnBlock`), blocks concatenated in
input order. -/
def turn_level_pad_and_concatenate (cfg : TensorConfig)
    (tensors : List (List (List (List Int)))) (pad_to_left : Bool) :
    List (List (List Int)) :=
  (tensors.map (turnBlock cfg (maxLen tensors) (trailingSize tensors) pad_to_left)).flatten

/-- Row already in pad-left layout: a block of pad tokens followed by tokens
all different from the pad id. -/
def PadLeftRow (pad : Int) (row : List Int) : Prop :=
  ∃ k rest, row = List.replicate k pad ++ rest ∧ ∀ x ∈ rest, x ≠ pad

/-- Row already in pad-right layout: tokens all different from the pad id
followed by a block of pad tokens. -/
def PadRightRow (pad : Int) (row : List Int) : Prop :=
  ∃ rest k, row = rest ++ List.replicate k pad ∧ ∀ x ∈ rest, x ≠ pad

/-- Configuration used by the concrete witnesses: pad token id 0. -/
def cfgW : TensorConfig := ⟨0, 4, 4, 4⟩

/-- Concrete ragged tensor list used by the C3 witness: shapes (2, 3, *D)
and (1, 5, *D) with flattened trailing size 1. -/
def tensorsW : List (List (List (List Int))) :=
  [[[[10], [11], [12]], [[13], [14], [15]]], [[[1], [2], [3], [4], [5]]]]

/-! ### Helper lemmas on the stable binary argsort and gather -/

lemma map_getD_filter_range (p : Int → Bool) (row : List Int) :
    ((List.range row.length).filter (fun i => p (row.getD i 0))).map
      (fun j => row.getD j 0) = row.filter p := by
  induction row with
  | nil => rfl
  | cons x xs ih =>
    have h1 : ((fun i => p ((x :: xs).getD i 0)) ∘ Nat.succ) = fun i => p (xs.getD i 0) := by
      funext i; simp [List.getD_cons_succ]
    have h2 : ((fun j => (x :: xs).getD j 0) ∘ Nat.succ) = fun j => xs.getD j 0 := by
      funext j; simp [List.getD_cons_succ]
    simp only [List.length_cons, List.range_succ_eq_map, List.filter_cons,
      List.getD_cons_zero, List.filter_map, h1]
    by_cases hx : p x
    · simp only [hx, if_pos, List.map_cons, List.getD_cons_zero, List.map_map, h2, ih]
    · simp only [hx, Bool.false_eq_true, if_false, List.map_map, h2, ih]

lemma gather_argsort (p : Int → Bool) (row : List Int) :
    gatherRow row (argsortBinaryRow p row) =
      row.filter (fun x => !(p x)) ++ row.filter p := by
  unfold gatherRow argsortBinaryRow
  rw [List.map_append, map_getD_filter_range (fun x => !(p x)) row,
    map_getD_filter_range p row]

/-- Characterization of the first component of `convert_pad_structure`: each
row is stably partitioned, pads before reals when converting to pad-left,
reals before pads when converting to pad-right. -/
lemma convert_pad_structure_fst (cfg : TensorConfig) (tensor : List (List Int))
    (side : Bool) :
    (convert_pad_structure cfg tensor side).1 = tensor.map (fun row =>
      if side then
        row.filter (fun x => x == cfg.pad_token_id) ++
          row.filter (fun x => x != cfg.pad_token_id)
      else
        row.filter (fun x => x != cfg.pad_token_id) ++
          row.filter (fun x => x == cfg.pad_token_id)) := by
  unfold convert_pad_structure
  cases side with
  | true =>
    simp only [if_pos]
    apply List.map_congr_left
    intro row _
    rw [gather_argsort]
    congr 1
    apply List.filter_congr
    intro x _
    simp [bne]
  | false =>
    simp only [Bool.false_eq_true, if_false]
    apply List.map_congr_left
    intro row _
    rw [gather_argsort]
    congr 1

lemma filter_pad_replicate (pad : Int) (k : Nat) :
    (List.replicate k pad).filter (fun x => x == pad) = List.replicate k pad := by
  rw [List.filter_eq_self]
  intro a ha
  simp [List.eq_of_mem_replicate ha]

lemma filter_real_replicate (pad : Int) (k : Nat) :
    (List.replicate k pad).filter (fun x => x != pad) = [] := by
  rw [List.filter_eq_nil_iff]
  intro a ha
  simp [List.eq_of_mem_replicate ha]

lemma filter_real_of_no_pad (pad : Int) (rest : List Int) (h : ∀ x ∈ rest, x ≠ pad) :
    rest.filter (fun x => x != pad) = rest := by
  rw [List.filter_eq_self]
  intro a ha
  simpa using h a ha

lemma filter_pad_of_no_pad (pad : Int) (rest : List Int) (h : ∀ x ∈ rest, x ≠ pad) :
    rest.filter (fun x => x == pad) = [] := by
  rw [List.filter_eq_nil_iff]
  intro a ha
  simpa using h a ha

lemma filter_beq_eq_replicate_count (pad : Int) (l : List Int) :
    l.filter (fun x => x == pad) = List.replicate (l.count pad) pad := by
  induction l with
  | nil => rfl
  | cons x xs ih =>
    by_cases hx : x = pad
    · subst hx
      simp [List.filter_cons, List.count_cons, ih, List.replicate_succ]
    · simp [List.filter_cons, List.count_cons, hx, ih]

/-- C2: `convert_pad_structure` reorders each row by a stable permutation of
its columns: the class that goes first (pads for pad-left, reals for
pad-right) precedes the other class, and within each class the original
left-to-right order is preserved (each class appears as a `filter` of the
row, which keeps relative order), so real-token order is never changed. -/
theorem convert_pad_structure_stable_partition (cfg : TensorConfig)
    (tensor : List (List Int)) (pad_to_left : Bool) :
    (convert_pad_structure cfg tensor pad_to_left).1 = tensor.map (fun row =>
      if pad_to_left then
        row.filter (fun x => x == cfg.pad_token_id) ++
          row.filter (fun x => x != cfg.pad_token_id)
      else
        row.filter (fun x => x != cfg.pad_token_id) ++
          row.filter (fun x => x == cfg.pad_token_id)) :=
  convert_pad_structure_fst cfg tensor pad_to_left

/-- C5: on a tensor whose rows are already in pad-left layout, converting to
pad-right and back to pad-left reproduces the original tensor. -/
theorem convert_pad_structure_roundtrip (cfg : TensorConfig)
    (t : List (List Int)) (h : ∀ row ∈ t, PadLeftRow cfg.pad_token_id row) :
    (convert_pad_structure cfg (convert_pad_structure cfg t false).1 true).1 = t := by
  rw [convert_pad_structure_fst, convert_pad_structure_fst, List.map_map]
  conv_rhs => rw [← List.map_id t]
  apply List.map_congr_left
  intro row hr
  obtain ⟨k, rest, hrow, hrest⟩ := h row hr
  subst hrow
  simp only [Function.comp_apply, Bool.false_eq_true, if_false, if_true,
    List.filter_append, filter_pad_replicate, filter_real_replicate,
    filter_real_of_no_pad _ _ hrest, filter_pad_of_no_pad _ _ hrest,
    List.nil_append, List.append_nil, id_eq]

/-- Witness for C5 at a concrete pad-left tensor. -/
theorem convert_pad_structure_roundtrip_witness :
    (∀ row ∈ [[(0 : Int), 3, 4]], PadLeftRow cfgW.pad_token_id row) ∧
      (convert_pad_structure cfgW
        (convert_pad_structure cfgW [[(0 : Int), 3, 4]] false).1 true).1 =
        [[(0 : Int), 3, 4]] := by
  have h : ∀ row ∈ [[(0 : Int), 3, 4]], PadLeftRow cfgW.pad_token_id row := by
    intro row hr
    rw [List.mem_singleton] at hr
    subst hr
    exact ⟨1, [3, 4], rfl, by decide⟩
  exact ⟨h, convert_pad_structure_roundtrip cfgW [[(0 : Int), 3, 4]] h⟩

lemma catDim1_pair_getD (t1 t2 : List (List Int)) (i : Nat) (h : i < t1.length) :
    (catDim1 [t1, t2]).getD i [] = t1.getD i [] ++ t2.getD i [] := by
  unfold catDim1
  have hlen : i < ((List.range ((([t1, t2] : List (List (List Int))).headD []).length)).map
      (fun i => (([t1, t2] : List (List (List Int))).map (fun t => t.getD i [])).flatten)).length := by
    simpa using h
  rw [List.getD_eq_getElem _ _ hlen, List.getElem_map]
  simp [List.getElem_range]

/-- C4: `concatenate_with_padding` is column-wise concatenation in list order
followed by pad-side conversion; in particular, concatenating a pad-left
array with a pad-right array and requesting pad-left output yields, per row,
a consolidated block of pad tokens at the left edge followed by the real
tokens of both inputs in their original left-to-right order. -/
theorem concatenate_with_padding_correct (cfg : TensorConfig)
    (t1 t2 : List (List Int)) (hlen : t2.length = t1.length)
    (hL : ∀ row ∈ t1, PadLeftRow cfg.pad_token_id row)
    (hR : ∀ row ∈ t2, PadRightRow cfg.pad_token_id row) :
    (∀ tensors side, concatenate_with_padding cfg tensors side =
      (convert_pad_structure cfg (catDim1 tensors) side).1) ∧
    ∀ i, i < t1.length →
      (concatenate_with_padding cfg [t1, t2] true).getD i [] =
        List.replicate ((t1.getD i []).count cfg.pad_token_id +
            (t2.getD i []).count cfg.pad_token_id) cfg.pad_token_id ++
          ((t1.getD i []).filter (fun x => x != cfg.pad_token_id) ++
            (t2.getD i []).filter (fun x => x != cfg.pad_token_id)) := by
  constructor
  · intro tensors side
    rfl
  · intro i hi
    unfold concatenate_with_padding
    rw [convert_pad_structure_fst]
    have hcat : i < (catDim1 [t1, t2]).length := by
      unfold catDim1
      simpa using hi
    have hmap : i < ((catDim1 [t1, t2]).map (fun row =>
        if true then
          row.filter (fun x => x == cfg.pad_token_id) ++
            row.filter (fun x => x != cfg.pad_token_id)
        else
          row.filter (fun x => x != cfg.pad_token_id) ++
            row.filter (fun x => x == cfg.pad_token_id))).length := by
      simpa using hcat
    rw [List.getD_eq_getElem _ _ hmap, List.getElem_map,
      ← List.getD_eq_getElem _ ([] : List Int) hcat, catDim1_pair_getD t1 t2 i hi]
    simp only [if_true, List.filter_append, filter_beq_eq_replicate_count,
      List.replicate_add, List.append_assoc]

/-- Witness for C4 on the spec's example: a pad-left 2-column array and a
pad-right 3-column array, requesting pad-left output. -/
theorem concatenate_with_padding_correct_witness :
    ([[(4 : Int), 5, 0]] : List (List Int)).length = ([[(0 : Int), 3]] : List (List Int)).length ∧
    (∀ row ∈ [[(0 : Int), 3]], PadLeftRow cfgW.pad_token_id row) ∧
    (∀ row ∈ [[(4 : Int), 5, 0]], PadRightRow cfgW.pad_token_id row) ∧
    ((∀ tensors side, concatenate_with_padding cfgW tensors side =
      (convert_pad_structure cfgW (catDim1 tensors) side).1) ∧
    ∀ i, i < ([[(0 : Int), 3]] : List (List Int)).length →
      (concatenate_with_padding cfgW [[[(0 : Int), 3]], [[(4 : Int), 5, 0]]] true).getD i [] =
        List.replicate ((([[(0 : Int), 3]] : List (List Int)).getD i []).count cfgW.pad_token_id +
            (([[(4 : Int), 5, 0]] : List (List Int)).getD i []).count cfgW.pad_token_id) cfgW.pad_token_id ++
          ((([[(0 : Int), 3]] : List (List Int)).getD i []).filter (fun x => x != cfgW.pad_token_id) ++
            (([[(4 : Int), 5, 0]] : List (List Int)).getD i []).filter (fun x => x != cfgW.pad_token_id))) := by
  have h1 : ∀ row ∈ [[(0 : Int), 3]], PadLeftRow cfgW.pad_token_id row := by
    intro row hr
    rw [List.mem_singleton] at hr
    subst hr
    exact ⟨1, [3], rfl, by decide⟩
  have h2 : ∀ row ∈ [[(4 : Int), 5, 0]], PadRightRow cfgW.pad_token_id row := by
    intro row hr
    rw [List.mem_singleton] at hr
    subst hr
    exact ⟨[4, 5], 1, rfl, by decide⟩
  exact ⟨rfl, h1, h2,
    concatenate_with_padding_correct cfgW [[(0 : Int), 3]] [[(4 : Int), 5, 0]] rfl h1 h2⟩

lemma posRow_getD (row : List Int) : ∀ (acc : Int) (j : Nat),
    (∀ x ∈ row, x = 0 ∨ x = 1) → j < row.length →
    ((cumsumFrom acc row).zipWith (fun c m => (c - 1) * m) row).getD j 0 =
      if row.getD j 0 = 0 then 0 else acc + ((row.take j).count 1 : Int) := by
  induction row with
  | nil =>
    intro acc j _ hj
    simp at hj
  | cons x xs ih =>
    intro acc j h hj
    cases j with
    | zero =>
      simp only [cumsumFrom, List.zipWith_cons_cons, List.getD_cons_zero]
      rcases h x (List.mem_cons_self x xs) with h0 | h1
      · simp [h0]
      · simp [h1]
    | succ j =>
      have hx := h x (List.mem_cons_self x xs)
      have hxs : ∀ y ∈ xs, y = 0 ∨ y = 1 := fun y hy => h y (List.mem_cons_of_mem x hy)
      have hj' : j < xs.length := by simpa using hj
      simp only [cumsumFrom, List.zipWith_cons_cons, List.getD_cons_succ,
        List.take_succ_cons]
      rw [ih (acc + x) j hxs hj']
      by_cases hx0 : xs.getD j 0 = 0
      · have hx0' : xs[j]?.getD 0 = 0 := by
          rw [← List.getD_eq_getElem?_getD]
          exact hx0
        simp [hx0']
      · rcases hx with h0 | h1
        · simp [hx0, h0]
        · subst h1
          simp only [hx0, if_false, List.count_cons]
          push_cast
          simp only [beq_self_eq_true, if_true]
          ring

lemma getD_map_of_lt {α β : Type} (f : α → β) (l : List α) (r : Nat) (dA : α)
    (dB : β) (hr : r < l.length) : (l.map f).getD r dB = f (l.getD r dA) := by
  rw [List.getD_eq_getElem _ _ (show r < (l.map f).length by simpa using hr),
    List.getElem_map, List.getD_eq_getElem _ _ hr]

/-- C6: for an attention mask with values in 0 and 1, `create_position_ids`
returns 0 at every 0 position, and at the position holding the k-th 1 of its
row (0-indexed, counted left to right, i.e. with k ones strictly before it)
it returns exactly k, wherever the 0 positions are interspersed. -/
theorem create_position_ids_correct (m : List (List Int))
    (h : ∀ row ∈ m, ∀ x ∈ row, x = 0 ∨ x = 1) :
    ∀ r j, r < m.length → j < (m.getD r []).length →
      ((m.getD r []).getD j 0 = 0 →
        ((create_position_ids m).getD r []).getD j 0 = 0) ∧
      ((m.getD r []).getD j 0 = 1 →
        ((create_position_ids m).getD r []).getD j 0 =
          (((m.getD r []).take j).count 1 : Int)) := by
  intro r j hr hj
  have hrow : ∀ x ∈ m.getD r [], x = 0 ∨ x = 1 := by
    intro x hx
    exact h (m.getD r []) (by
      rw [List.getD_eq_getElem _ _ hr]
      exact List.getElem_mem hr) x hx
  have hout : (create_position_ids m).getD r [] =
      (cumsumFrom 0 (m.getD r [])).zipWith (fun c mk => (c - 1) * mk) (m.getD r []) := by
    unfold create_position_ids
    exact getD_map_of_lt _ m r [] [] hr
  rw [hout, posRow_getD (m.getD r []) 0 j hrow hj]
  constructor
  · intro h0
    rw [if_pos h0]
  · intro h1
    rw [if_neg (by rw [h1]; decide)]
    ring

/-- Witness for C6 at a concrete 0/1 mask. -/
theorem create_position_ids_correct_witness :
    (∀ row ∈ [[(1 : Int), 0, 1, 1, 0]], ∀ x ∈ row, x = 0 ∨ x = 1) ∧
    (∀ r j, r < ([[(1 : Int), 0, 1, 1, 0]] : List (List Int)).length →
      j < (([[(1 : Int), 0, 1, 1, 0]] : List (List Int)).getD r []).length →
      ((([[(1 : Int), 0, 1, 1, 0]] : List (List Int)).getD r []).getD j 0 = 0 →
        ((create_position_ids [[(1 : Int), 0, 1, 1, 0]]).getD r []).getD j 0 = 0) ∧
      ((([[(1 : Int), 0, 1, 1, 0]] : List (List Int)).getD r []).getD j 0 = 1 →
        ((create_position_ids [[(1 : Int), 0, 1, 1, 0]]).getD r []).getD j 0 =
          (((([[(1 : Int), 0, 1, 1, 0]] : List (List Int)).getD r []).take j).count 1 : Int))) :=
  ⟨by decide, create_position_ids_correct [[(1 : Int), 0, 1, 1, 0]] (by decide)⟩

lemma getD_tail (l : List α) (n : Nat) (d : α) : l.tail.getD n d = l.getD (n + 1) d := by
  cases l with
  | nil => simp
  | cons x xs => simp [List.getD_cons_succ]

lemma scatterRows_length (pad : Int) (L : Nat) :
    ∀ (mask : List Bool) (rows : List (List Int)),
      (scatterRows pad L mask rows).length = mask.length := by
  intro mask
  induction mask with
  | nil => intro rows; rfl
  | cons b ms ih =>
    intro rows
    cases b <;> simp [scatterRows, ih]

lemma scatterStrs_length :
    ∀ (mask : List Bool) (ss : List String),
      (scatterStrs mask ss).length = mask.length := by
  intro mask
  induction mask with
  | nil => intro ss; rfl
  | cons b ms ih =>
    intro ss
    cases b <;> simp [scatterStrs, ih]

lemma scatterRows_getD (pad : Int) (L : Nat) :
    ∀ (mask : List Bool) (rows : List (List Int)) (i : Nat),
      rows.length = mask.countP (fun b => b) → i < mask.length →
      (scatterRows pad L mask rows).getD i [] =
        if mask.getD i false then
          rows.getD ((mask.take i).countP (fun b => b)) []
        else List.replicate L pad := by
  intro mask
  induction mask with
  | nil =>
    intro rows i _ hi
    simp at hi
  | cons b ms ih =>
    intro rows i h hi
    cases b with
    | true =>
      cases i with
      | zero =>
        have hne : rows ≠ [] := by
          intro he
          rw [he] at h
          simp [List.countP_cons] at h
        match rows, hne with
        | r :: rs, _ => simp [scatterRows]
      | succ i =>
        have h' : rows.tail.length = ms.countP (fun b => b) := by
          rw [List.length_tail, h]
          simp [List.countP_cons]
        have hi' : i < ms.length := by simpa using hi
        simp only [scatterRows, List.getD_cons_succ, List.take_succ_cons]
        rw [ih rows.tail i h' hi']
        by_cases hm : ms.getD i false
        · simp only [hm, if_true, List.countP_cons, getD_tail]
        · simp [hm]
    | false =>
      cases i with
      | zero => simp [scatterRows]
      | succ i =>
        have h' : rows.length = ms.countP (fun b => b) := by
          rw [h]
          simp [List.countP_cons]
        have hi' : i < ms.length := by simpa using hi
        simp only [scatterRows, List.getD_cons_succ, List.take_succ_cons]
        rw [ih rows i h' hi']
        by_cases hm : ms.getD i false
        · simp [hm, List.countP_cons]
        · simp [hm]

lemma scatterStrs_getD :
    ∀ (mask : List Bool) (ss : List String) (i : Nat), i < mask.length →
      (scatterStrs mask ss).getD i "" =
        if mask.getD i false then
          ss.getD ((mask.take i).countP (fun b => b)) ""
        else "" := by
  intro mask
  induction mask with
  | nil =>
    intro ss i hi
    simp at hi
  | cons b ms ih =>
    intro ss i hi
    cases b with
    | true =>
      cases i with
      | zero =>
        cases ss with
        | nil => simp [scatterStrs]
        | cons s rest => simp [scatterStrs]
      | succ i =>
        have hi' : i < ms.length := by simpa using hi
        simp only [scatterStrs, List.getD_cons_succ, List.take_succ_cons]
        rw [ih ss.tail i hi']
        by_cases hm : ms.getD i false
        · simp only [hm, if_true, List.countP_cons, getD_tail]
        · simp [hm]
    | false =>
      cases i with
      | zero => simp [scatterStrs]
      | succ i =>
        have hi' : i < ms.length := by simpa using hi
        simp only [scatterStrs, List.getD_cons_succ, List.take_succ_cons]
        rw [ih ss i hi']
        by_cases hm : ms.getD i false
        · simp [hm, List.countP_cons]
        · simp [hm]

/-- C1: under the precondition that the number of True entries of the active
mask equals the number of active rows (with a parallel string list),
`_example_level_pad` returns a full-batch tensor and string list where the
i-th True position of the mask, in left-to-right scan order (position `i`
with k True entries strictly before it receives active row and string `k`),
holds the corresponding active row and string, and every False position
holds an all-pad row and the empty string. -/
theorem example_level_pad_correct (cfg : TensorConfig) (responses : List (List Int))
    (responses_str : List String) (active_mask : List Bool)
    (h : active_mask.countP (fun b => b) = responses.length)
    (hs : responses_str.length = responses.length) :
    ∃ p q, example_level_pad cfg responses responses_str active_mask =
        .ok (p, q) ∧
      p.length = active_mask.length ∧ q.length = active_mask.length ∧
      ∀ i, i < active_mask.length →
        (active_mask.getD i false = true →
          p.getD i [] =
            responses.getD ((active_mask.take i).countP (fun b => b)) [] ∧
          q.getD i "" =
            responses_str.getD ((active_mask.take i).countP (fun b => b)) "") ∧
        (active_mask.getD i false = false →
          p.getD i [] =
            List.replicate (responses.headD []).length cfg.pad_token_id ∧
          q.getD i "" = "") := by
  refine ⟨scatterRows cfg.pad_token_id (responses.headD []).length active_mask responses,
    scatterStrs active_mask responses_str, ?_, ?_, ?_, ?_⟩
  · unfold example_level_pad
    rw [if_pos h]
  · exact scatterRows_length _ _ _ _
  · exact scatterStrs_length _ _
  · intro i hi
    constructor
    · intro ht
      constructor
      · rw [scatterRows_getD cfg.pad_token_id _ active_mask responses i h.symm hi, ht, if_pos rfl]
      · rw [scatterStrs_getD active_mask responses_str i hi, ht, if_pos rfl]
    · intro hf
      constructor
      · rw [scatterRows_getD cfg.pad_token_id _ active_mask responses i h.symm hi, hf]
        simp
      · rw [scatterStrs_getD active_mask responses_str i hi, hf]
        simp

/-- Witness for C1 on the spec's example: mask [True, False, True], two
active rows and two active strings. -/
theorem example_level_pad_correct_witness :
    ([true, false, true].countP (fun b => b) = ([[(1 : Int)], [2]] : List (List Int)).length) ∧
    (["x", "y"].length = ([[(1 : Int)], [2]] : List (List Int)).length) ∧
    (∃ p q, example_level_pad cfgW [[(1 : Int)], [2]] ["x", "y"] [true, false, true] =
        .ok (p, q) ∧
      p.length = ([true, false, true] : List Bool).length ∧
      q.length = ([true, false, true] : List Bool).length ∧
      ∀ i, i < ([true, false, true] : List Bool).length →
        (([true, false, true] : List Bool).getD i false = true →
          p.getD i [] =
            ([[(1 : Int)], [2]] : List (List Int)).getD
              ((([true, false, true] : List Bool).take i).countP (fun b => b)) [] ∧
          q.getD i "" =
            ["x", "y"].getD ((([true, false, true] : List Bool).take i).countP (fun b => b)) "") ∧
        (([true, false, true] : List Bool).getD i false = false →
          p.getD i [] =
            List.replicate (([[(1 : Int)], [2]] : List (List Int)).headD []).length cfgW.pad_token_id ∧
          q.getD i "" = "")) :=
  ⟨by decide, by decide,
    example_level_pad_correct cfgW [[(1 : Int)], [2]] ["x", "y"] [true, false, true]
      (by decide) (by decide)⟩

/-- C9: `_example_level_pad` rejects (fails on its assertion, before
producing any output) every call in which the number of True entries of the
active mask differs from the number of rows of the active responses tensor. -/
theorem example_level_pad_rejects (cfg : TensorConfig) (responses : List (List Int))
    (responses_str : List String) (active_mask : List Bool)
    (h : active_mask.countP (fun b => b) ≠ responses.length) :
    example_level_pad cfg responses responses_str active_mask =
      .error "active mask sum does not match responses rows" := by
  unfold example_level_pad
  rw [if_neg h]

/-- Witness for C9: a mask with one True entry against an empty responses
tensor is rejected. -/
theorem example_level_pad_rejects_witness :
    ([true, false].countP (fun b => b) ≠ ([] : List (List Int)).length) ∧
    example_level_pad cfgW [] ["x"] [true, false] =
      .error "active mask sum does not match responses rows" :=
  ⟨by decide, example_level_pad_rejects cfgW [] ["x"] [true, false] (by decide)⟩

lemma le_foldr_max : ∀ (l : List Nat) (x : Nat), x ∈ l → x ≤ l.foldr max 0 := by
  intro l
  induction l with
  | nil =>
    intro x hx
    simp at hx
  | cons a as ih =>
    intro x hx
    rcases List.mem_cons.mp hx with h | h
    · subst h
      simp [List.foldr]
    · exact le_trans (ih x h) (by simp [List.foldr])

lemma flatten_getD_block {α : Type} : ∀ (blocks : List (List α)) (j k : Nat) (d : α),
    j < blocks.length → k < (blocks.getD j []).length →
    blocks.flatten.getD (((blocks.take j).map List.length).sum + k) d =
      (blocks.getD j []).getD k d := by
  intro blocks
  induction blocks with
  | nil =>
    intro j k d hj _
    simp at hj
  | cons b bs ih =>
    intro j k d hj hk
    cases j with
    | zero =>
      have hk' : k < b.length := by simpa using hk
      simp only [List.take_zero, List.map_nil, List.sum_nil, Nat.zero_add,
        List.flatten_cons, List.getD_cons_zero]
      exact List.getD_append _ _ _ _ hk'
    | succ j =>
      have hj' : j < bs.length := by simpa using hj
      have hk' : k < (bs.getD j []).length := by simpa using hk
      simp only [List.take_succ_cons, List.map_cons, List.sum_cons, List.flatten_cons,
        List.getD_cons_succ]
      rw [Nat.add_assoc, List.getD_append_right _ _ _ _ (Nat.le_add_right _ _),
        Nat.add_sub_cancel_left, ih j k d hj' hk']

lemma writeSlice_replicate {α : Type} (c : α) (M start : Nat) (src : List α)
    (h : start + src.length ≤ M) :
    writeSlice (List.replicate M c) start src =
      List.replicate start c ++ src ++ List.replicate (M - (start + src.length)) c := by
  unfold writeSlice
  rw [List.take_replicate, List.drop_replicate, Nat.min_eq_left (by omega)]

lemma turnBlock_length (cfg : TensorConfig) (L_max dsize : Nat) (ptl : Bool)
    (t : List (List (List Int))) : (turnBlock cfg L_max dsize ptl t).length = t.length :=
  List.length_map t _

/-- C3: for a non-empty list of rectangular tensors of shapes (b_i, L_i, *D)
sharing the trailing shape, `_turn_level_pad_and_concatenate` returns a
tensor with `sum of b_i` rows in which the rows of input tensor `j` occupy
the contiguous output rows starting at the sum of the b_i before it (blocks
in input order, no interleaving); each such row carries the source row
bit-for-bit at columns 0..L_j-1 when `pad_to_left` is false or at columns
L_max-L_j..L_max-1 when it is true, every remaining column being a cell
filled entirely with the pad token id. -/
theorem turn_level_pad_and_concatenate_correct (cfg : TensorConfig)
    (tensors : List (List (List (List Int)))) (pad_to_left : Bool)
    (hne : tensors ≠ [])
    (hrect : ∀ t ∈ tensors, t ≠ [] ∧ ∀ row ∈ t, row.length = tensorLen t)
    (hcell : ∀ t ∈ tensors, ∀ row ∈ t, ∀ cell ∈ row,
      cell.length = trailingSize tensors) :
    (turn_level_pad_and_concatenate cfg tensors pad_to_left).length =
      (tensors.map List.length).sum ∧
    ∀ j k, j < tensors.length → k < (tensors.getD j []).length →
      (turn_level_pad_and_concatenate cfg tensors pad_to_left).getD
          (((tensors.take j).map List.length).sum + k) [] =
        if pad_to_left then
          List.replicate (maxLen tensors - tensorLen (tensors.getD j []))
              (List.replicate (trailingSize tensors) cfg.pad_token_id) ++
            (tensors.getD j []).getD k []
        else
          (tensors.getD j []).getD k [] ++
            List.replicate (maxLen tensors - tensorLen (tensors.getD j []))
              (List.replicate (trailingSize tensors) cfg.pad_token_id) := by
  constructor
  · unfold turn_level_pad_and_concatenate
    rw [List.length_flatten, List.map_map]
    congr 1
    apply List.map_congr_left
    intro t _
    simp [Function.comp, turnBlock_length]
  · intro j k hj hk
    have htj : tensors.getD j [] ∈ tensors := by
      rw [List.getD_eq_getElem _ _ hj]
      exact List.getElem_mem hj
    obtain ⟨_, hrow⟩ := hrect _ htj
    have hrowmem : (tensors.getD j []).getD k [] ∈ tensors.getD j [] := by
      rw [List.getD_eq_getElem _ _ hk]
      exact List.getElem_mem hk
    have hrl : ((tensors.getD j []).getD k []).length = tensorLen (tensors.getD j []) :=
      hrow _ hrowmem
    have hLle : tensorLen (tensors.getD j []) ≤ maxLen tensors :=
      le_foldr_max _ _ (List.mem_map_of_mem tensorLen htj)
    unfold turn_level_pad_and_concatenate
    have hjB : j < (tensors.map
        (turnBlock cfg (maxLen tensors) (trailingSize tensors) pad_to_left)).length := by
      simpa using hj
    have hBj : (tensors.map
        (turnBlock cfg (maxLen tensors) (trailingSize tensors) pad_to_left)).getD j [] =
        turnBlock cfg (maxLen tensors) (trailingSize tensors) pad_to_left
          (tensors.getD j []) :=
      getD_map_of_lt _ tensors j [] [] hj
    have hkB : k < ((tensors.map
        (turnBlock cfg (maxLen tensors) (trailingSize tensors) pad_to_left)).getD j []).length := by
      rw [hBj, turnBlock_length]
      exact hk
    have hoff : (((tensors.map
        (turnBlock cfg (maxLen tensors) (trailingSize tensors) pad_to_left)).take j).map
          List.length).sum = ((tensors.take j).map List.length).sum := by
      rw [← List.map_take, List.map_map]
      congr 1
      apply List.map_congr_left
      intro t _
      simp [Function.comp, turnBlock_length]
    rw [← hoff, flatten_getD_block _ j k [] hjB hkB, hBj]
    unfold turnBlock
    rw [getD_map_of_lt _ _ k [] [] hk]
    have hle : (if pad_to_left then maxLen tensors - tensorLen (tensors.getD j []) else 0) +
        ((tensors.getD j []).getD k []).length ≤ maxLen tensors := by
      rw [hrl]
      cases pad_to_left with
      | true =>
        simp only [if_true]
        omega
      | false =>
        simp only [Bool.false_eq_true, if_false, Nat.zero_add]
        exact hLle
    rw [writeSlice_replicate _ _ _ _ hle]
    cases pad_to_left with
    | true =>
      simp only [if_true, hrl]
      rw [Nat.sub_add_cancel hLle, Nat.sub_self, List.replicate_zero, List.append_nil]
    | false =>
      simp only [Bool.false_eq_true, if_false, Nat.zero_add, hrl,
        List.replicate_zero, List.nil_append]

/-- Witness for C3 on the spec's example: shapes (2, 3, *D) and (1, 5, *D)
with trailing size 1, `pad_to_left = false`. -/
theorem turn_level_pad_and_concatenate_correct_witness :
    (tensorsW ≠ [] ∧
     (∀ t ∈ tensorsW, t ≠ [] ∧ ∀ row ∈ t, row.length = tensorLen t) ∧
     (∀ t ∈ tensorsW, ∀ row ∈ t, ∀ cell ∈ row,
        cell.length = trailingSize tensorsW)) ∧
    ((turn_level_pad_and_concatenate cfgW tensorsW false).length =
      (tensorsW.map List.length).sum ∧
     ∀ j k, j < tensorsW.length → k < (tensorsW.getD j []).length →
       (turn_level_pad_and_concatenate cfgW tensorsW false).getD
           (((tensorsW.take j).map List.length).sum + k) [] =
         if false then
           List.replicate (maxLen tensorsW - tensorLen (tensorsW.getD j []))
               (List.replicate (trailingSize tensorsW) cfgW.pad_token_id) ++
             (tensorsW.getD j []).getD k []
         else
           (tensorsW.getD j []).getD k [] ++
             List.replicate (maxLen tensorsW - tensorLen (tensorsW.getD j []))
               (List.replicate (trailingSize tensorsW) cfgW.pad_token_id)) :=
  ⟨⟨by decide, by decide, by decide⟩,
    turn_level_pad_and_concatenate_correct cfgW tensorsW false
      (by decide) (by decide) (by decide)⟩

lemma lookup_map_replace (k : String) (v : List (List Int)) :
    ∀ (d : TensorDict), d.any (fun p => p.1 == k) = true →
      (d.map (fun p => if p.1 == k then (k, v) else p)).lookup k = some v := by
  intro d
  induction d with
  | nil =>
    intro h
    simp at h
  | cons p ps ih =>
    obtain ⟨pk, pv⟩ := p
    intro h
    by_cases hp : pk = k
    · simp [hp, List.lookup_cons]
    · have hp' : (pk == k) = false := beq_false_of_ne hp
      have hk' : (k == pk) = false := beq_false_of_ne (Ne.symm hp)
      have h' : ps.any (fun q => q.1 == k) = true := by simpa [hp'] using h
      simp only [List.map_cons, hp', Bool.false_eq_true, if_false, List.lookup_cons, hk']
      exact ih h'

lemma lookup_append_not_any (k : String) (v : List (List Int)) :
    ∀ (d : TensorDict), d.any (fun p => p.1 == k) = false →
      (d ++ [(k, v)]).lookup k = some v := by
  intro d
  induction d with
  | nil =>
    intro _
    simp [List.lookup_cons]
  | cons p ps ih =>
    obtain ⟨pk, pv⟩ := p
    intro h
    simp only [List.any_cons, Bool.or_eq_false_iff] at h
    have hk' : (k == pk) = false := by
      rcases h with ⟨h1, _⟩
      have : pk ≠ k := by
        intro he
        rw [he] at h1
        simp at h1
      exact beq_false_of_ne (Ne.symm this)
    simp only [List.cons_append, List.lookup_cons, hk']
    exact ih h.2

lemma lookup_dictSet_self (d : TensorDict) (k : String) (v : List (List Int)) :
    (dictSet d k v).lookup k = some v := by
  unfold dictSet
  by_cases h : d.any (fun p => p.1 == k) = true
  · rw [if_pos h]
    exact lookup_map_replace k v d h
  · rw [if_neg h]
    exact lookup_append_not_any k v d (Bool.eq_false_iff.mpr h)

lemma lookup_map_replace_ne (k : String) (v : List (List Int)) (q : String)
    (hq : q ≠ k) : ∀ (d : TensorDict),
      (d.map (fun p => if p.1 == k then (k, v) else p)).lookup q = d.lookup q := by
  intro d
  induction d with
  | nil => rfl
  | cons p ps ih =>
    obtain ⟨pk, pv⟩ := p
    by_cases hp : pk = k
    · subst hp
      have hqk : (q == pk) = false := beq_false_of_ne hq
      simp only [List.map_cons, beq_self_eq_true, if_true, List.lookup_cons, hqk]
      exact ih
    · have hp' : (pk == k) = false := beq_false_of_ne hp
      simp only [List.map_cons, hp', Bool.false_eq_true, if_false, List.lookup_cons]
      cases hqp : (q == pk) with
      | true => rfl
      | false => exact ih

lemma lookup_append_single_ne (k : String) (v : List (List Int)) (q : String)
    (hq : q ≠ k) : ∀ (d : TensorDict), (d ++ [(k, v)]).lookup q = d.lookup q := by
  intro d
  induction d with
  | nil =>
    simp [List.lookup_cons, beq_false_of_ne hq]
  | cons p ps ih =>
    obtain ⟨pk, pv⟩ := p
    simp only [List.cons_append, List.lookup_cons]
    cases hqp : (q == pk) with
    | true => rfl
    | false => exact ih

lemma lookup_dictSet_ne (d : TensorDict) (k : String) (v : List (List Int))
    (q : String) (hq : q ≠ k) : (dictSet d k v).lookup q = d.lookup q := by
  unfold dictSet
  by_cases h : d.any (fun p => p.1 == k) = true
  · rw [if_pos h]
    exact lookup_map_replace_ne k v q hq d
  · rw [if_neg h]
    exact lookup_append_single_ne k v q hq d

lemma foldl_dictSet_lookup_not_mem (g : String → List (List Int)) :
    ∀ (keys : List String) (res : TensorDict) (k : String), k ∉ keys →
      (keys.foldl (fun r key => dictSet r key (g key)) res).lookup k =
        res.lookup k := by
  intro keys
  induction keys with
  | nil =>
    intro res k _
    rfl
  | cons key rest ih =>
    intro res k hk
    have h1 : k ≠ key := fun he => hk (he ▸ List.mem_cons_self key rest)
    have h2 : k ∉ rest := fun hm => hk (List.mem_cons_of_mem key hm)
    simp only [List.foldl_cons]
    rw [ih _ k h2, lookup_dictSet_ne _ _ _ _ h1]

lemma foldl_dictSet_lookup_mem (g : String → List (List Int)) :
    ∀ (keys : List String) (res : TensorDict) (k : String), k ∈ keys →
      (keys.foldl (fun r key => dictSet r key (g key)) res).lookup k =
        some (g k) := by
  intro keys
  induction keys with
  | nil =>
    intro res k hk
    simp at hk
  | cons key rest ih =>
    intro res k hk
    by_cases hm : k ∈ rest
    · simp only [List.foldl_cons]
      exact ih _ k hm
    · have hkey : k = key := by
        rcases List.mem_cons.mp hk with h | h
        · exact h
        · exact absurd h hm
      subst hkey
      simp only [List.foldl_cons]
      rw [foldl_dictSet_lookup_not_mem g rest _ k hm, lookup_dictSet_self]

lemma cut_lookup_mem (d : TensorDict) (keys : List String) (cl : Bool)
    (k : String) (hk : k ∈ keys) :
    (cut_to_effective_len d keys cl).lookup k =
      some (cutTensor (effectiveLen d) cl ((d.lookup k).getD [])) := by
  unfold cut_to_effective_len
  exact foldl_dictSet_lookup_mem _ keys d k hk

lemma cut_lookup_not_mem (d : TensorDict) (keys : List String) (cl : Bool)
    (k : String) (hk : k ∉ keys) :
    (cut_to_effective_len d keys cl).lookup k = d.lookup k := by
  unfold cut_to_effective_len
  exact foldl_dictSet_lookup_not_mem _ keys d k hk

lemma rowSumInt_zero : ∀ (row : List Int), (∀ x ∈ row, x = 0) → rowSumInt row = 0 := by
  intro row
  induction row with
  | nil =>
    intro _
    rfl
  | cons x xs ih =>
    intro h
    have hx : x = 0 := h x (List.mem_cons_self x xs)
    have hxs : rowSumInt xs = 0 := ih (fun y hy => h y (List.mem_cons_of_mem x hy))
    simp only [rowSumInt, List.foldr_cons] at hxs ⊢
    rw [hx, hxs]
    ring

lemma effectiveLen_all_zero (d : TensorDict)
    (h : ∀ row ∈ (d.lookup "attention_mask").getD [], ∀ x ∈ row, x = 0) :
    effectiveLen d = 0 := by
  unfold effectiveLen
  generalize hm : (d.lookup "attention_mask").getD [] = rows at h
  clear hm
  induction rows with
  | nil => rfl
  | cons r rs ih =>
    have hr : rowSumInt r = 0 := rowSumInt_zero r (h r (List.mem_cons_self r rs))
    have hrs := ih (fun row hrow => h row (List.mem_cons_of_mem r hrow))
    simp only [List.map_cons, List.foldr_cons] at hrs ⊢
    rw [hr, hrs]
    rfl

lemma cutRow_zero_left (row : List Int) : cutRow 0 true row = row := by
  unfold cutRow pyIdx
  norm_num

lemma cutRow_zero_right (row : List Int) : cutRow 0 false row = [] := by
  unfold cutRow pyIdx
  norm_num

lemma cutRow_ge_width (el : Int) (cl : Bool) (row : List Int)
    (h : (row.length : Int) ≤ el) : cutRow el cl row = row := by
  unfold cutRow
  cases cl with
  | true =>
    have hz : pyIdx row.length (-el) = 0 := by
      unfold pyIdx
      split <;> omega
    simp [hz]
  | false =>
    have hw : pyIdx row.length el = row.length := by
      unfold pyIdx
      split
      · omega
      · have : row.length ≤ el.toNat := by omega
        exact Nat.min_eq_right this
    simp [hw]

/-- C7 counterexample: with an all-zero attention mask and `cut_left = true`,
the named output keeps its full 2-column sequence dimension (the Python
slice `[:, -0:]` selects every column), refuting the claimed zero-length
sequence dimension for the `cut_left = true` direction. -/
theorem cut_to_effective_len_all_pad_counterexample :
    (cut_to_effective_len [("attention_mask", [[0, 0]]), ("obs", [[5, 6]])]
        ["obs"] true).lookup "obs" = some [[(5 : Int), 6]] ∧
    ¬ (cut_to_effective_len [("attention_mask", [[0, 0]]), ("obs", [[5, 6]])]
        ["obs"] true).lookup "obs" = some [[]] := by
  constructor
  · decide
  · decide

/-- C7 amended: with an all-zero attention mask the effective length is 0;
with `cut_left = false` every named output has a zero-length sequence
dimension, while with `cut_left = true` every named array is returned
unchanged at full width (the negated zero slice start selects the whole
row); neither direction raises an error. -/
theorem cut_to_effective_len_all_pad (d : TensorDict) (keys : List String)
    (k : String) (t : List (List Int))
    (hz : ∀ row ∈ (d.lookup "attention_mask").getD [], ∀ x ∈ row, x = 0)
    (hk : k ∈ keys) (ht : d.lookup k = some t) :
    effectiveLen d = 0 ∧
    (cut_to_effective_len d keys false).lookup k =
      some (t.map (fun _ => ([] : List Int))) ∧
    (cut_to_effective_len d keys true).lookup k = some t := by
  have h0 := effectiveLen_all_zero d hz
  refine ⟨h0, ?_, ?_⟩
  · rw [cut_lookup_mem d keys false k hk, ht, h0]
    simp only [Option.getD_some]
    congr 1
    exact List.map_congr_left (fun row _ => cutRow_zero_right row)
  · rw [cut_lookup_mem d keys true k hk, ht, h0]
    simp only [Option.getD_some]
    congr 1
    have hmap : t.map (cutRow 0 true) = t := by
      conv_rhs => rw [← List.map_id t]
      exact List.map_congr_left (fun row _ => by simpa using cutRow_zero_left row)
    exact hmap

/-- Witness for the amended C7 at a concrete all-pad dict. -/
theorem cut_to_effective_len_all_pad_witness :
    ((∀ row ∈ ((([("attention_mask", [[0, 0]]), ("obs", [[5, 6]])] : TensorDict).lookup
        "attention_mask").getD []), ∀ x ∈ row, x = 0) ∧
      "obs" ∈ ["obs"] ∧
      ([("attention_mask", [[0, 0]]), ("obs", [[5, 6]])] : TensorDict).lookup "obs" =
        some [[(5 : Int), 6]]) ∧
    (effectiveLen [("attention_mask", [[0, 0]]), ("obs", [[5, 6]])] = 0 ∧
     (cut_to_effective_len [("attention_mask", [[0, 0]]), ("obs", [[5, 6]])]
        ["obs"] false).lookup "obs" =
       some (([[(5 : Int), 6]] : List (List Int)).map (fun _ => ([] : List Int))) ∧
     (cut_to_effective_len [("attention_mask", [[0, 0]]), ("obs", [[5, 6]])]
        ["obs"] true).lookup "obs" = some [[(5 : Int), 6]]) :=
  ⟨⟨by decide, by decide, by decide⟩,
    cut_to_effective_len_all_pad [("attention_mask", [[0, 0]]), ("obs", [[5, 6]])]
      ["obs"] "obs" [[(5 : Int), 6]] (by decide) (by decide) (by decide)⟩

/-- C8 counterexample: a named array whose sequence dimension (3) differs
from the attention mask's (5) does not make `cut_to_effective_len` fail:
the call returns a dict in both directions, with the mismatched array
returned unchanged (Python slices clamp out-of-range bounds). -/
theorem cut_to_effective_len_mismatch_counterexample :
    (cut_to_effective_len [("attention_mask", [[1, 1, 1, 1, 1]]), ("x", [[7, 8, 9]])]
        ["x"] true).lookup "x" = some [[(7 : Int), 8, 9]] ∧
    (cut_to_effective_len [("attention_mask", [[1, 1, 1, 1, 1]]), ("x", [[7, 8, 9]])]
        ["x"] false).lookup "x" = some [[(7 : Int), 8, 9]] := by
  constructor
  · decide
  · decide

/-- C8 amended: `cut_to_effective_len` never raises on a sequence-dimension
mismatch; Python slice clamping means that whenever the effective length is
at least a named array's width, that array is returned unchanged (in both
cut directions) instead of failing. -/
theorem cut_to_effective_len_mismatch_clamps (d : TensorDict) (keys : List String)
    (cl : Bool) (k : String) (t : List (List Int)) (w : Nat)
    (hk : k ∈ keys) (ht : d.lookup k = some t)
    (hw : ∀ row ∈ t, row.length = w)
    (hel : (w : Int) ≤ effectiveLen d) :
    (cut_to_effective_len d keys cl).lookup k = some t := by
  rw [cut_lookup_mem d keys cl k hk, ht]
  simp only [Option.getD_some]
  congr 1
  conv_rhs => rw [← List.map_id t]
  apply List.map_congr_left
  intro row hrow
  have hle : (row.length : Int) ≤ effectiveLen d := by
    rw [hw row hrow]
    exact hel
  simpa using cutRow_ge_width (effectiveLen d) cl row hle

/-- Witness for the amended C8 at a concrete mismatched dict (mask width 5,
named array width 3, effective length 5). -/
theorem cut_to_effective_len_mismatch_clamps_witness :
    ("x" ∈ ["x"] ∧
     ([("attention_mask", [[1, 1, 1, 1, 1]]), ("x", [[7, 8, 9]])] : TensorDict).lookup "x" =
       some [[(7 : Int), 8, 9]] ∧
     (∀ row ∈ ([[(7 : Int), 8, 9]] : List (List Int)), row.length = 3) ∧
     ((3 : Nat) : Int) ≤ effectiveLen [("attention_mask", [[1, 1, 1, 1, 1]]), ("x", [[7, 8, 9]])]) ∧
    (cut_to_effective_len [("attention_mask", [[1, 1, 1, 1, 1]]), ("x", [[7, 8, 9]])]
        ["x"] true).lookup "x" = some [[(7 : Int), 8, 9]] :=
  ⟨⟨by decide, by decide, by decide, by decide⟩,
    cut_to_effective_len_mismatch_clamps
      [("attention_mask", [[1, 1, 1, 1, 1]]), ("x", [[7, 8, 9]])] ["x"] true "x"
      [[(7 : Int), 8, 9]] 3 (by decide) (by decide) (by decide) (by decide)⟩

/-- C10: `cut_to_effective_len` is pure (the embedding returns a new dict and
cannot mutate its argument); the returned dict contains every key of the
input, and every entry whose key is not in the supplied key list — the
attention mask included, when unlisted — is looked up unchanged as the
original tensor. -/
theorem cut_to_effective_len_frame (d : TensorDict) (keys : List String)
    (cl : Bool) :
    (∀ k, (d.lookup k).isSome →
      ((cut_to_effective_len d keys cl).lookup k).isSome) ∧
    (∀ k, k ∉ keys →
      (cut_to_effective_len d keys cl).lookup k = d.lookup k) := by
  constructor
  · intro k hs
    by_cases hk : k ∈ keys
    · rw [cut_lookup_mem d keys cl k hk]
      rfl
    · rw [cut_lookup_not_mem d keys cl k hk]
      exact hs
  · intro k hk
    exact cut_lookup_not_mem d keys cl k hk

/-- Witness for C10: the unlisted attention mask is returned unchanged and
an input key stays present. -/
theorem cut_to_effective_len_frame_witness :
    ("attention_mask" ∉ (["obs"] : List String) ∧
      (cut_to_effective_len [("attention_mask", [[1, 0]]), ("obs", [[5, 6]])]
        ["obs"] true).lookup "attention_mask" =
        ([("attention_mask", [[1, 0]]), ("obs", [[5, 6]])] : TensorDict).lookup
          "attention_mask") ∧
    ((([("attention_mask", [[1, 0]]), ("obs", [[5, 6]])] : TensorDict).lookup
        "obs").isSome →
      ((cut_to_effective_len [("attention_mask", [[1, 0]]), ("obs", [[5, 6]])]
        ["obs"] true).lookup "obs").isSome) :=
  ⟨⟨by decide,
    (cut_to_effective_len_frame [("attention_mask", [[1, 0]]), ("obs", [[5, 6]])]
      ["obs"] true).2 "attention_mask" (by decide)⟩,
    (cut_to_effective_len_frame [("attention_mask", [[1, 0]]), ("obs", [[5, 6]])]
      ["obs"] true).1 "obs"⟩
